import Mathlib

/-!
Verification of the streaming text-classification core of the
`scipy_2015_sklearn_tutorial` repository (notebook
`07.1 Case Study - Large Scale Text Classification.ipynb`).

The notebook's own code (`read_csv`, `InfiniteStreamGenerator`) is embedded
directly from the source.  The feature hasher (`HashingVectorizer` /
`murmurhash3_bytes_u32`) and the incremental classifier
(`PassiveAggressiveClassifier.partial_fit` / `score`) are library calls whose
implementations are not part of the repository; those components are modelled
from the specification, as indicated on each definition.
-/

namespace TextClf

/-! ## Feature hasher -/

/-- Splits a character list into maximal runs of alphanumeric characters;
separator characters open a new (possibly empty) group. -/
def splitNonAlnum : List Char → List (List Char)
  | [] => [[]]
  | c :: rest =>
    let groups := splitNonAlnum rest
    if c.isAlphanum then
      match groups with
      | [] => [[c]]
      | g :: gs => (c :: g) :: gs
    else [] :: groups

/-- Modelled from the spec: the hasher's tokenization rule (the analyzer of the
library's `HashingVectorizer`, not part of this repository): lowercase the
text, split on non-alphanumeric boundaries, drop empty tokens; an empty input
silently yields the empty token sequence. -/
def tokenize (text : String) : List String :=
  ((splitNonAlnum (text.toList.map Char.toLower)).filter (fun t => t ≠ [])).map
    (fun t => String.mk t)

/-- Modelled from the spec: feature index of a token is `hash(token) mod
n_features`.  The hash function itself (`murmurhash3_bytes_u32`, from the
external library) is a parameter: any deterministic hash on strings. -/
def featureIndex (hash : String → Nat) (nFeatures : Nat) (tok : String) : Nat :=
  hash tok % nFeatures

/-- Modelled from the spec: the sign of a token is `+1` when a second
independent hash bit is `0` (here `false`), else `-1`. -/
def tokenSign (signBit : String → Bool) (tok : String) : Int :=
  if signBit tok = false then 1 else -1

/-- Adds `x` to the entry at position `i` of a dense vector; positions past the
end are left untouched. -/
def addAt : List Int → Nat → Int → List Int
  | [], _, _ => []
  | v :: vs, 0, x => (v + x) :: vs
  | v :: vs, i + 1, x => v :: addAt vs i x

/-- Modelled from the spec: the hasher transform.  A dense view of the sparse
count vector: start from the all-zero vector of the fixed dimensionality
`nFeatures` and accumulate each token's sign at its feature index. -/
def transform (hash : String → Nat) (signBit : String → Bool) (nFeatures : Nat)
    (text : String) : List Int :=
  (tokenize text).foldl
    (fun v tok => addAt v (featureIndex hash nFeatures tok) (tokenSign signBit tok))
    (List.replicate nFeatures 0)

theorem addAt_length (v : List Int) (i : Nat) (x : Int) :
    (addAt v i x).length = v.length := by
  induction v generalizing i with
  | nil => rfl
  | cons a vs ih =>
    cases i with
    | zero => rfl
    | succ j => simp [addAt, ih]

theorem addAt_getD (v : List Int) (j i : Nat) (x : Int) (hi : i < v.length) :
    (addAt v j x).getD i 0 = v.getD i 0 + if j = i then x else 0 := by
  induction v generalizing i j with
  | nil => simp at hi
  | cons a vs ih =>
    cases j with
    | zero =>
      cases i with
      | zero => simp [addAt]
      | succ k => simp [addAt]
    | succ j0 =>
      cases i with
      | zero => simp [addAt]
      | succ k =>
        simp only [addAt, List.getD_cons_succ]
        rw [ih j0 k (by simpa using hi)]
        simp

theorem transform_length (hash : String → Nat) (signBit : String → Bool)
    (nFeatures : Nat) (text : String) :
    (transform hash signBit nFeatures text).length = nFeatures := by
  unfold transform
  generalize tokenize text = toks
  suffices h : ∀ (ts : List String) (v : List Int),
      (ts.foldl (fun v tok =>
        addAt v (featureIndex hash nFeatures tok) (tokenSign signBit tok)) v).length
        = v.length by
    simpa using h toks (List.replicate nFeatures 0)
  intro ts
  induction ts with
  | nil => intro v; rfl
  | cons t ts ih =>
    intro v
    simpa [addAt_length] using ih (addAt v (featureIndex hash nFeatures t) (tokenSign signBit t))

theorem tokenize_empty : tokenize "" = [] := rfl

theorem transform_getD (hash : String → Nat) (signBit : String → Bool)
    (nFeatures : Nat) (text : String) (i : Nat) (hi : i < nFeatures) :
    (transform hash signBit nFeatures text).getD i 0
      = ((tokenize text).map (fun tok =>
          if featureIndex hash nFeatures tok = i then tokenSign signBit tok else 0)).sum := by
  unfold transform
  generalize tokenize text = toks
  suffices h : ∀ (ts : List String) (v : List Int), i < v.length →
      (ts.foldl (fun v tok =>
        addAt v (featureIndex hash nFeatures tok) (tokenSign signBit tok)) v).getD i 0
        = v.getD i 0 + (ts.map (fun tok =>
            if featureIndex hash nFeatures tok = i then tokenSign signBit tok else 0)).sum by
    have := h toks (List.replicate nFeatures 0) (by simpa using hi)
    simpa using this
  intro ts
  induction ts with
  | nil => intro v _; simp
  | cons t ts ih =>
    intro v hv
    have hlen : i < (addAt v (featureIndex hash nFeatures t) (tokenSign signBit t)).length := by
      rwa [addAt_length]
    simp only [List.foldl_cons, List.map_cons, List.sum_cons]
    rw [ih _ hlen, addAt_getD v _ i _ hv]
    ring

/-! ## Incremental linear classifier (passive-aggressive update) -/

/-- Dot product of two dense rational vectors (truncating at the shorter). -/
def dot (x y : List ℚ) : ℚ := (List.zipWith (fun a b => a * b) x y).sum

/-- Squared Euclidean norm of a dense rational vector. -/
def normSq (x : List ℚ) : ℚ := dot x x

/-- `w + c • x`, componentwise. -/
def addScaled (w : List ℚ) (c : ℚ) (x : List ℚ) : List ℚ :=
  List.zipWith (fun wi xi => wi + c * xi) w x

/-- Modelled from the spec: the per-example passive-aggressive update of
`PassiveAggressiveClassifier.partial_fit` (library code, not part of this
repository).  With margin `m = label * (w · x)`: no update when `m ≥ 1`
(passive); skip when `‖x‖² = 0` (degenerate, rather than divide by zero);
otherwise `w += tau * label * x` with `tau = min C (max 0 (1 - m) / ‖x‖²)`. -/
def paStep (C : ℚ) (w : List ℚ) (x : List ℚ) (label : Int) : List ℚ :=
  if normSq x = 0 then w
  else if 1 ≤ (label : ℚ) * dot w x then w
  else addScaled w
    (min C (max 0 (1 - (label : ℚ) * dot w x) / normSq x) * (label : ℚ)) x

/-- Errors of the classifier, from the spec's error-handling design. -/
inductive UpdateError where
  | invalidConfiguration
  | uninitializedModel
  | malformedBatch
deriving DecidableEq

/-- Modelled from the spec: the batch update (`partial_fit`).  Every label is
validated against the declared class set before any weight mutation
(all-or-nothing per batch); on success the per-example updates are applied in
input order.  Returns the outcome together with the resulting weights, which
are the input weights unchanged when the batch is rejected. -/
def partialFit (classes : List Int) (C : ℚ) (w : List ℚ)
    (batch : List (List ℚ × Int)) : Except UpdateError Unit × List ℚ :=
  if batch.all (fun ex => classes.contains ex.2) then
    (Except.ok (), batch.foldl (fun acc ex => paStep C acc ex.1 ex.2) w)
  else
    (Except.error UpdateError.malformedBatch, w)

/-- Modelled from the spec: prediction is `sign(w · x)`, with the tie at a dot
product of exactly `0` resolved to a configurable default class. -/
def predict (defaultClass : Int) (w : List ℚ) (x : List ℚ) : Int :=
  if 0 < dot w x then 1 else if dot w x < 0 then -1 else defaultClass

/-- Modelled from the spec: the scoring operation (`score`): the fraction of
examples of the batch whose prediction equals the true label. -/
def score (defaultClass : Int) (w : List ℚ) (batch : List (List ℚ × Int)) : ℚ :=
  (batch.countP (fun ex => predict defaultClass w ex.1 == ex.2) : ℚ)
    / (batch.length : ℚ)

/-- The largest per-class label count of a labelled batch over a class set. -/
def majorityCount (batch : List (List ℚ × Int)) (classes : List Int) : Nat :=
  (classes.map (fun c => batch.countP (fun ex => ex.2 == c))).foldr max 0

/-- Majority-class accuracy of a labelled batch over a class set: the largest
per-class label count divided by the batch size. -/
def majorityAcc (classes : List Int) (batch : List (List ℚ × Int)) : ℚ :=
  (majorityCount batch classes : ℚ) / (batch.length : ℚ)

/-! ## Infinite stream generator (from the notebook source) -/

/-- Modelled from the spec: stand-in for Python's `random.Random` (the
standard-library Mersenne Twister, external to this repository).  A
deterministic pseudo-random generator whose entire state is a single number
derived from the seed; the claims proved below depend only on its determinism
and on the range of the values it draws, never on the particular sequence. -/
structure PyRandom where
  state : Nat
deriving DecidableEq

/-- One step of the stand-in generator: linear-congruential update. -/
def PyRandom.next (r : PyRandom) : Nat × PyRandom :=
  let s := (r.state * 1103515245 + 12345) % 4294967296
  (s, ⟨s⟩)

/-- `rng.choice(seq)` for a list: a uniformly drawn element, failing (as the
Python `IndexError`) on an empty sequence. -/
def PyRandom.choice {α : Type} (r : PyRandom) (l : List α) : Option (α × PyRandom) :=
  if h : 0 < l.length then
    let p := r.next
    some (l.get ⟨p.1 % l.length, Nat.mod_lt _ h⟩, p.2)
  else none

/-- `rng.choice((-1, 1))`: draws `-1` (index 0) or `1` (index 1). -/
def PyRandom.choicePM (r : PyRandom) : Int × PyRandom :=
  let p := r.next
  (if p.1 % 2 = 0 then -1 else 1, p.2)

/-- State of the notebook's `InfiniteStreamGenerator`: the positive and
negative text pools, the random generator and the default batch size. -/
structure InfiniteStreamGenerator where
  texts_pos : List String
  texts_neg : List String
  rng : PyRandom
  batchsize : Nat
deriving DecidableEq

/-- The constructor `InfiniteStreamGenerator.__init__`: the positive pool keeps
the texts zipped with a target `> 0`, the negative pool those with a target
`≤ 0`; the random generator is seeded with `seed`. -/
def InfiniteStreamGenerator.init (texts : List String) (targets : List Int)
    (seed : Nat) (batchsize : Nat) : InfiniteStreamGenerator :=
  { texts_pos := (texts.zip targets).filterMap
      (fun p => if 0 < p.2 then some p.1 else none)
    texts_neg := (texts.zip targets).filterMap
      (fun p => if p.2 ≤ 0 then some p.1 else none)
    rng := ⟨seed⟩
    batchsize := batchsize }

/-- The pool matching a target's polarity: `texts_pos` when `target > 0`,
else `texts_neg`. -/
def InfiniteStreamGenerator.pool (g : InfiniteStreamGenerator) (target : Int) :
    List String :=
  if 0 < target then g.texts_pos else g.texts_neg

/-- The loop body of `next_batch`: draw `b` examples, each a random polarity
together with the space-separated concatenation of two random texts of that
polarity; fails when a required pool is empty. -/
def nextBatchAux (g : InfiniteStreamGenerator) :
    Nat → PyRandom → Option (List String × List Int × PyRandom)
  | 0, r => some ([], [], r)
  | n + 1, r =>
    let tp := r.choicePM
    (tp.2.choice (g.pool tp.1)).bind fun p1 =>
      (p1.2.choice (g.pool tp.1)).bind fun p2 =>
        (nextBatchAux g n p2.2).bind fun rest =>
          some ((p1.1 ++ " " ++ p2.1) :: rest.1, tp.1 :: rest.2.1, rest.2.2)

/-- `InfiniteStreamGenerator.next_batch`: uses the stored batch size when the
argument is `none`, and returns the texts, the targets and the generator with
its advanced random state. -/
def InfiniteStreamGenerator.nextBatch (g : InfiniteStreamGenerator)
    (batchsize : Option Nat) :
    Option ((List String × List Int) × InfiniteStreamGenerator) :=
  match nextBatchAux g (batchsize.getD g.batchsize) g.rng with
  | none => none
  | some (ts, tg, r) => some ((ts, tg), { g with rng := r })

/-- Observable trace of a sequence of `next_batch` calls, threading the
generator state; a failing call is recorded as `none`. -/
def runBatches : InfiniteStreamGenerator → List (Option Nat) →
    List (Option (List String × List Int))
  | _, [] => []
  | g, c :: cs =>
    match g.nextBatch c with
    | none => none :: runBatches g cs
    | some (out, g2) => some out :: runBatches g2 cs

/-! ## CSV reader (from the notebook source) -/

/-- A row as produced by `csv.DictReader` with the notebook's `FIELDNAMES`;
only the `polarity` and `text` fields are consumed by `read_csv`. -/
structure CsvRow where
  polarity : String
  text : String
deriving DecidableEq

/-- The truthiness-guarded cap test `max_count and count >= max_count / 2` of
`read_csv` (Python 2 kernel: `/` on integers is floor division; a `None` or
`0` cap is falsy, disabling the cap). -/
def capReached : Option Nat → Nat → Bool
  | none, _ => false
  | some mc, c => if mc = 0 then false else decide (mc / 2 ≤ c)

/-- The row loop of `read_csv`: `i` is the enumeration index, `posCount` and
`negCount` the per-polarity keep counters.  Rows outside the requested
partition are skipped; a `'4'` row is kept with target `1` and a `'0'` row
with target `-1`, each unless its cap is reached; any other polarity is
dropped. -/
def readCsvAux (maxCount : Option Nat) (nPartitions partitionId : Nat) :
    List CsvRow → Nat → Nat → Nat → List String × List Int
  | [], _, _, _ => ([], [])
  | row :: rest, i, posCount, negCount =>
    if i % nPartitions ≠ partitionId then
      readCsvAux maxCount nPartitions partitionId rest (i + 1) posCount negCount
    else if row.polarity = "4" then
      if capReached maxCount posCount then
        readCsvAux maxCount nPartitions partitionId rest (i + 1) posCount negCount
      else
        (row.text :: (readCsvAux maxCount nPartitions partitionId rest (i + 1)
            (posCount + 1) negCount).1,
         1 :: (readCsvAux maxCount nPartitions partitionId rest (i + 1)
            (posCount + 1) negCount).2)
    else if row.polarity = "0" then
      if capReached maxCount negCount then
        readCsvAux maxCount nPartitions partitionId rest (i + 1) posCount negCount
      else
        (row.text :: (readCsvAux maxCount nPartitions partitionId rest (i + 1)
            posCount (negCount + 1)).1,
         -1 :: (readCsvAux maxCount nPartitions partitionId rest (i + 1)
            posCount (negCount + 1)).2)
    else
      readCsvAux maxCount nPartitions partitionId rest (i + 1) posCount negCount

/-- `read_csv` over an already-parsed row sequence: collects texts and targets
starting from index `0` with both counters at `0`. -/
def read_csv (rows : List CsvRow) (maxCount : Option Nat)
    (nPartitions partitionId : Nat) : List String × List Int :=
  readCsvAux maxCount nPartitions partitionId rows 0 0 0

/-! ## Supporting lemmas -/

theorem dot_replicate_zero (n : Nat) (x : List ℚ) :
    dot (List.replicate n 0) x = 0 := by
  induction n generalizing x with
  | zero => rfl
  | succ m ih =>
    cases x with
    | nil => rfl
    | cons y ys =>
      have h := ih ys
      simp only [dot] at h
      simp [dot, List.replicate_succ, h]

theorem predict_replicate_zero (defaultClass : Int) (n : Nat) (x : List ℚ) :
    predict defaultClass (List.replicate n 0) x = defaultClass := by
  simp [predict, dot_replicate_zero]

/-! ## Claim theorems -/

/-- C1: for every `n_features > 0` and every input text, the feature hasher's
output vector has dimensionality exactly `n_features`, and every feature index
it produces is a non-negative integer in `[0, n_features)` computed as
`hash(token) mod n_features`. -/
theorem hasher_fixed_dimensionality (hash : String → Nat) (signBit : String → Bool)
    (nFeatures : Nat) (text : String) (hn : 0 < nFeatures) :
    (transform hash signBit nFeatures text).length = nFeatures ∧
    ∀ tok ∈ tokenize text,
      featureIndex hash nFeatures tok < nFeatures ∧
      featureIndex hash nFeatures tok = hash tok % nFeatures := by
  refine ⟨transform_length hash signBit nFeatures text, ?_⟩
  intro tok _
  exact ⟨Nat.mod_lt _ hn, rfl⟩

theorem hasher_fixed_dimensionality_witness :
    0 < 4 ∧
    ((transform (fun s => s.length) (fun _ => false) 4 "ab cde").length = 4 ∧
      ∀ tok ∈ tokenize "ab cde",
        featureIndex (fun s => s.length) 4 tok < 4 ∧
        featureIndex (fun s => s.length) 4 tok = (fun s : String => s.length) tok % 4) :=
  ⟨by decide,
   hasher_fixed_dimensionality (fun s => s.length) (fun _ => false) 4 "ab cde" (by decide)⟩

/-- C2: an example with margin `m = label * (w · x) < 1` triggers the update
`w += tau * label * x` with `tau = min C (max 0 (1 - m) / ‖x‖²)`, an example
with `m ≥ 1` triggers no update; and from zero weights with `C = 1`, one
example whose only nonzero feature is `1.0` at index 0 with label `+1` leaves
weight `1.0` at index 0 and `0` elsewhere after one update. -/
theorem pa_update_rule (C : ℚ) (w x : List ℚ) (label : Int) :
    (1 ≤ (label : ℚ) * dot w x → paStep C w x label = w) ∧
    ((label : ℚ) * dot w x < 1 → normSq x ≠ 0 →
      paStep C w x label
        = addScaled w
            (min C (max 0 (1 - (label : ℚ) * dot w x) / normSq x) * (label : ℚ)) x) ∧
    partialFit [-1, 1] 1 (List.replicate 16 0) [((1 : ℚ) :: List.replicate 15 0, 1)]
      = (Except.ok (), (1 : ℚ) :: List.replicate 15 0) := by
  refine ⟨?_, ?_,
    by norm_num [partialFit, paStep, normSq, dot, addScaled, List.replicate]⟩
  · intro h
    unfold paStep
    by_cases h0 : normSq x = 0
    · rw [if_pos h0]
    · rw [if_neg h0, if_pos h]
  · intro hm hsq
    unfold paStep
    rw [if_neg hsq, if_neg (not_le.mpr hm)]

theorem pa_update_rule_witness :
    (1 ≤ ((1 : Int) : ℚ) * dot [1] [1] ∧ paStep 1 [1] [1] 1 = [1]) ∧
    (((1 : Int) : ℚ) * dot [0] [1] < 1 ∧ normSq [1] ≠ 0 ∧
      paStep 1 [0] [1] 1
        = addScaled [0]
            (min 1 (max 0 (1 - ((1 : Int) : ℚ) * dot [0] [1]) / normSq [1])
              * ((1 : Int) : ℚ)) [1]) :=
  ⟨⟨by simp [dot], (pa_update_rule 1 [1] [1] 1).1 (by simp [dot])⟩,
   ⟨by simp [dot], by simp [normSq, dot],
    (pa_update_rule 1 [0] [1] 1).2.1 (by simp [dot]) (by simp [normSq, dot])⟩⟩

/-- C3: the entry of the hasher's output at each index `i` is the sum, over the
sample's tokens hashing to `i`, of the token's sign: `+1` when the second
independent hash bit is `0`, `-1` otherwise — so identical tokens in the same
sample accumulate under that sign. -/
theorem signed_hashing_accumulation (hash : String → Nat) (signBit : String → Bool)
    (nFeatures : Nat) (text : String) (i : Nat) (hi : i < nFeatures) :
    (transform hash signBit nFeatures text).getD i 0
      = ((tokenize text).map (fun tok =>
          if featureIndex hash nFeatures tok = i then
            (if signBit tok = false then 1 else -1) else 0)).sum := by
  simpa [tokenSign] using transform_getD hash signBit nFeatures text i hi

theorem signed_hashing_accumulation_witness :
    2 < 3 ∧
    (transform (fun s => s.length) (fun s => decide (s.length % 2 = 0)) 3 "aa b aa").getD 2 0
      = ((tokenize "aa b aa").map (fun tok =>
          if featureIndex (fun s => s.length) 3 tok = 2 then
            (if (fun s : String => decide (s.length % 2 = 0)) tok = false then 1 else -1)
          else 0)).sum :=
  ⟨by decide,
   signed_hashing_accumulation (fun s => s.length) (fun s => decide (s.length % 2 = 0))
     3 "aa b aa" 2 (by decide)⟩

/-- C4: for every `n_features > 0`, hashing an empty text yields the all-zero
vector of dimensionality `n_features` (no error), and the classifier's update
step skips any example whose feature vector has squared norm `0`, leaving the
weights unchanged instead of dividing by zero. -/
theorem empty_input_safety :
    (∀ (hash : String → Nat) (signBit : String → Bool) (nFeatures : Nat),
      0 < nFeatures →
        transform hash signBit nFeatures "" = List.replicate nFeatures 0) ∧
    ∀ (C : ℚ) (w x : List ℚ) (label : Int),
      normSq x = 0 → paStep C w x label = w := by
  constructor
  · intro hash signBit nFeatures _
    rfl
  · intro C w x label h
    unfold paStep
    rw [if_pos h]

theorem empty_input_safety_witness :
    (0 < 5 ∧
      transform (fun s => s.length) (fun _ => false) 5 "" = List.replicate 5 0) ∧
    (normSq [0, 0] = 0 ∧ paStep 1 [3, 4] [0, 0] (-1) = [3, 4]) :=
  ⟨⟨by decide, empty_input_safety.1 (fun s => s.length) (fun _ => false) 5 (by decide)⟩,
   ⟨by simp [normSq, dot], empty_input_safety.2 1 [3, 4] [0, 0] (-1) (by simp [normSq, dot])⟩⟩

/-- C5: a batch containing a label outside the declared class set makes the
update fail with the `malformedBatch` error before any weight mutation: the
weights coming out of the failed call are exactly the weights that went in. -/
theorem malformed_batch_rejected (classes : List Int) (C : ℚ) (w : List ℚ)
    (batch : List (List ℚ × Int)) (h : ∃ ex ∈ batch, ex.2 ∉ classes) :
    partialFit classes C w batch
      = (Except.error UpdateError.malformedBatch, w) := by
  unfold partialFit
  rw [if_neg]
  intro hall
  obtain ⟨ex, hmem, hnot⟩ := h
  rw [List.all_eq_true] at hall
  exact hnot (List.elem_iff.mp (hall ex hmem))

theorem malformed_batch_rejected_witness :
    (∃ ex ∈ [(([(1 : ℚ)], (5 : Int)))], ex.2 ∉ [(-1 : Int), 1]) ∧
    partialFit [-1, 1] 1 [0] [([(1 : ℚ)], 5)]
      = (Except.error UpdateError.malformedBatch, [0]) :=
  ⟨by decide, malformed_batch_rejected [-1, 1] 1 [0] [([(1 : ℚ)], 5)] (by decide)⟩

/-- C6: the batch update is not commutative: from the same initial weights
`[0]`, applying the batch `A = [([1], +1)]` then `B = [([2], -1)]` yields
different final weights than applying `B` then `A`. -/
theorem update_order_sensitivity :
    (partialFit [-1, 1] 1 (partialFit [-1, 1] 1 [(0 : ℚ)] [([(1 : ℚ)], 1)]).2
        [([(2 : ℚ)], -1)]).2
      ≠ (partialFit [-1, 1] 1 (partialFit [-1, 1] 1 [(0 : ℚ)] [([(2 : ℚ)], -1)]).2
        [([(1 : ℚ)], 1)]).2 := by
  norm_num [partialFit, paStep, normSq, dot, addScaled]

/-- C7 as stated fails: with default class `1`, scoring a single-example batch
labelled `-1` under all-zero weights yields `0`, not the batch's
majority-class accuracy `1`. -/
theorem score_zero_weights_claim_false :
    score 1 (List.replicate 1 0) [([(1 : ℚ)], -1)]
      ≠ majorityAcc [-1, 1] [([(1 : ℚ)], -1)] := by
  norm_num [score, majorityAcc, majorityCount, predict, dot,
    List.countP_cons, List.countP_nil]

/-- C7 amended: with all-zero weights every dot product is `0`, so every
prediction resolves to the default class and the score is the fraction of
examples labelled with the default class; this equals the batch's
majority-class accuracy exactly when the default class attains the largest
per-class label count of the batch. -/
theorem score_zero_weights_baseline (defaultClass : Int) (n : Nat)
    (batch : List (List ℚ × Int)) :
    score defaultClass (List.replicate n 0) batch
      = (batch.countP (fun ex => ex.2 == defaultClass) : ℚ) / (batch.length : ℚ)
    ∧ (batch.countP (fun ex => ex.2 == defaultClass) = majorityCount batch [-1, 1] →
        score defaultClass (List.replicate n 0) batch = majorityAcc [-1, 1] batch) := by
  have hcount :
      batch.countP (fun ex => predict defaultClass (List.replicate n 0) ex.1 == ex.2)
        = batch.countP (fun ex => ex.2 == defaultClass) := by
    apply List.countP_congr
    intro ex _
    rw [predict_replicate_zero]
    simp only [beq_iff_eq]
    exact eq_comm
  constructor
  · unfold score
    rw [hcount]
  · intro h
    unfold score majorityAcc
    rw [hcount, h]

theorem score_zero_weights_baseline_witness :
    ([([(1 : ℚ)], (-1 : Int))].countP (fun ex => ex.2 == (-1 : Int))
        = majorityCount [([(1 : ℚ)], (-1 : Int))] [-1, 1]) ∧
    score (-1) (List.replicate 1 0) [([(1 : ℚ)], -1)]
      = majorityAcc [-1, 1] [([(1 : ℚ)], -1)] :=
  ⟨by decide, (score_zero_weights_baseline (-1) 1 [([(1 : ℚ)], -1)]).2 (by decide)⟩

/-- The per-example shape of a generated batch: the target is `-1` or `+1` and
the text is the space-separated concatenation of two texts of the pool of the
target's polarity. -/
def batchPred (g : InfiniteStreamGenerator) (text : String) (target : Int) : Prop :=
  (target = -1 ∨ target = 1) ∧
  ∃ t1 ∈ g.pool target, ∃ t2 ∈ g.pool target, text = t1 ++ " " ++ t2

theorem choicePM_cases (r : PyRandom) :
    (r.choicePM).1 = -1 ∨ (r.choicePM).1 = 1 := by
  by_cases h : (r.next).1 % 2 = 0 <;> simp [PyRandom.choicePM, h]

theorem choice_mem {α : Type} {r r2 : PyRandom} {l : List α} {a : α}
    (h : r.choice l = some (a, r2)) : a ∈ l := by
  unfold PyRandom.choice at h
  by_cases hl : 0 < l.length
  · rw [dif_pos hl] at h
    simp only [Option.some.injEq, Prod.mk.injEq] at h
    exact h.1 ▸ List.get_mem l _ _
  · rw [dif_neg hl] at h
    exact absurd h (by simp)

theorem nextBatchAux_zero (g : InfiniteStreamGenerator) (r : PyRandom) :
    nextBatchAux g 0 r = some ([], [], r) := rfl

theorem nextBatchAux_succ (g : InfiniteStreamGenerator) (n : Nat) (r : PyRandom) :
    nextBatchAux g (n + 1) r
      = ((r.choicePM).2.choice (g.pool (r.choicePM).1)).bind (fun p1 =>
          (p1.2.choice (g.pool (r.choicePM).1)).bind (fun p2 =>
            (nextBatchAux g n p2.2).bind (fun rest =>
              some ((p1.1 ++ " " ++ p2.1) :: rest.1, (r.choicePM).1 :: rest.2.1,
                rest.2.2)))) := rfl

theorem nextBatchAux_spec (g : InfiniteStreamGenerator) :
    ∀ (b : Nat) (r : PyRandom) (ts : List String) (tg : List Int) (r2 : PyRandom),
      nextBatchAux g b r = some (ts, tg, r2) →
      ts.length = b ∧ tg.length = b ∧ List.Forall₂ (batchPred g) ts tg := by
  intro b
  induction b with
  | zero =>
    intro r ts tg r2 h
    rw [nextBatchAux_zero] at h
    simp only [Option.some.injEq, Prod.mk.injEq] at h
    obtain ⟨h1, h2, h3⟩ := h
    subst h1; subst h2
    exact ⟨rfl, rfl, List.Forall₂.nil⟩
  | succ n ih =>
    intro r ts tg r2 h
    rw [nextBatchAux_succ] at h
    simp only [Option.bind_eq_some, Option.some.injEq, Prod.mk.injEq] at h
    obtain ⟨⟨t1, r3⟩, h1, ⟨t2, r4⟩, h2, ⟨ts0, tg0, r5⟩, h3, h4, h5, h6⟩ := h
    subst h4; subst h5
    obtain ⟨ih1, ih2, ih3⟩ := ih r4 ts0 tg0 r5 h3
    refine ⟨by simp [ih1], by simp [ih2], List.Forall₂.cons ?_ ih3⟩
    exact ⟨choicePM_cases r, t1, choice_mem h1, t2, choice_mem h2, rfl⟩

/-- C8: whenever `next_batch b` succeeds, the texts and the targets lists both
have length exactly `b`, every target is `-1` or `+1`, and every text is the
space-separated concatenation of two texts drawn from the stored pool of the
same polarity as its target. -/
theorem next_batch_shape (g : InfiniteStreamGenerator) (b : Nat)
    (ts : List String) (tg : List Int) (g2 : InfiniteStreamGenerator)
    (h : g.nextBatch (some b) = some ((ts, tg), g2)) :
    ts.length = b ∧ tg.length = b ∧ List.Forall₂ (batchPred g) ts tg := by
  unfold InfiniteStreamGenerator.nextBatch at h
  simp only [Option.getD_some] at h
  cases h1 : nextBatchAux g b g.rng with
  | none => rw [h1] at h; simp at h
  | some val =>
    obtain ⟨ts0, tg0, r⟩ := val
    rw [h1] at h
    simp only [Option.some.injEq, Prod.mk.injEq] at h
    obtain ⟨⟨hts, htg⟩, hg⟩ := h
    subst hts; subst htg
    exact nextBatchAux_spec g b g.rng ts0 tg0 r h1

/-- C9: two stream generators constructed from the same texts, targets and
seed (and the same batch size, also fixed at construction) produce identical
traces of batches under every sequence of `next_batch` calls: the stream is a
deterministic function of the construction arguments, with no hidden state. -/
theorem stream_determinism (texts : List String) (targets : List Int)
    (seed batchsize : Nat) (g1 g2 : InfiniteStreamGenerator)
    (h1 : g1 = InfiniteStreamGenerator.init texts targets seed batchsize)
    (h2 : g2 = InfiniteStreamGenerator.init texts targets seed batchsize)
    (calls : List (Option Nat)) :
    runBatches g1 calls = runBatches g2 calls := by
  subst h1; subst h2; rfl

theorem stream_determinism_witness :
    runBatches (InfiniteStreamGenerator.init ["good", "bad"] [1, -1] 0 100)
        [some 1, some 2]
      = runBatches (InfiniteStreamGenerator.init ["good", "bad"] [1, -1] 0 100)
        [some 1, some 2] :=
  stream_determinism ["good", "bad"] [1, -1] 0 100 _ _ rfl rfl [some 1, some 2]

theorem next_batch_shape_witness :
    (InfiniteStreamGenerator.init ["good", "bad"] [1, -1] 0 100).nextBatch (some 2)
        = some ((["good good", "bad bad"], [1, -1]),
            { texts_pos := ["good"], texts_neg := ["bad"],
              rng := ⟨3256818826⟩, batchsize := 100 }) ∧
    (["good good", "bad bad"].length = 2 ∧ ([1, -1] : List Int).length = 2 ∧
      List.Forall₂
        (batchPred (InfiniteStreamGenerator.init ["good", "bad"] [1, -1] 0 100))
        ["good good", "bad bad"] [1, -1]) :=
  ⟨rfl,
   next_batch_shape (InfiniteStreamGenerator.init ["good", "bad"] [1, -1] 0 100) 2
     ["good good", "bad bad"] [1, -1]
     { texts_pos := ["good"], texts_neg := ["bad"],
       rng := ⟨3256818826⟩, batchsize := 100 }
     rfl⟩

/-- The provenance of one output pair of `read_csv`: a `+1` target comes with
its text from a polarity-`'4'` row, a `-1` target from a polarity-`'0'` row. -/
def rowPred (rows : List CsvRow) (text : String) (target : Int) : Prop :=
  (target = 1 ∧ ∃ r ∈ rows, r.polarity = "4" ∧ r.text = text) ∨
  (target = -1 ∧ ∃ r ∈ rows, r.polarity = "0" ∧ r.text = text)

theorem rowPred_mono (row : CsvRow) (rest : List CsvRow) {text : String}
    {target : Int} (h : rowPred rest text target) :
    rowPred (row :: rest) text target := by
  rcases h with ⟨h1, r, hr, hp, ht⟩ | ⟨h1, r, hr, hp, ht⟩
  · exact Or.inl ⟨h1, r, List.mem_cons_of_mem _ hr, hp, ht⟩
  · exact Or.inr ⟨h1, r, List.mem_cons_of_mem _ hr, hp, ht⟩

theorem readCsvAux_nil (maxCount : Option Nat) (nPartitions partitionId i pc nc : Nat) :
    readCsvAux maxCount nPartitions partitionId [] i pc nc = ([], []) := rfl

theorem readCsvAux_cons (maxCount : Option Nat) (nPartitions partitionId : Nat)
    (row : CsvRow) (rest : List CsvRow) (i pc nc : Nat) :
    readCsvAux maxCount nPartitions partitionId (row :: rest) i pc nc
      = if i % nPartitions ≠ partitionId then
          readCsvAux maxCount nPartitions partitionId rest (i + 1) pc nc
        else if row.polarity = "4" then
          if capReached maxCount pc then
            readCsvAux maxCount nPartitions partitionId rest (i + 1) pc nc
          else
            (row.text :: (readCsvAux maxCount nPartitions partitionId rest (i + 1)
                (pc + 1) nc).1,
             1 :: (readCsvAux maxCount nPartitions partitionId rest (i + 1)
                (pc + 1) nc).2)
        else if row.polarity = "0" then
          if capReached maxCount nc then
            readCsvAux maxCount nPartitions partitionId rest (i + 1) pc nc
          else
            (row.text :: (readCsvAux maxCount nPartitions partitionId rest (i + 1)
                pc (nc + 1)).1,
             -1 :: (readCsvAux maxCount nPartitions partitionId rest (i + 1)
                pc (nc + 1)).2)
        else
          readCsvAux maxCount nPartitions partitionId rest (i + 1) pc nc := rfl

theorem readCsvAux_forall (maxCount : Option Nat) (nPartitions partitionId : Nat) :
    ∀ (rows : List CsvRow) (i pc nc : Nat),
      List.Forall₂ (rowPred rows)
        (readCsvAux maxCount nPartitions partitionId rows i pc nc).1
        (readCsvAux maxCount nPartitions partitionId rows i pc nc).2 := by
  intro rows
  induction rows with
  | nil => intro i pc nc; exact List.Forall₂.nil
  | cons row rest ih =>
    intro i pc nc
    rw [readCsvAux_cons]
    split_ifs with h1 h2 h3 h4 h5
    · exact (ih (i + 1) pc nc).imp (fun a b hp => rowPred_mono row rest hp)
    · exact (ih (i + 1) pc nc).imp (fun a b hp => rowPred_mono row rest hp)
    · exact List.Forall₂.cons
        (Or.inl ⟨rfl, row, List.mem_cons_self row rest, h2, rfl⟩)
        ((ih (i + 1) (pc + 1) nc).imp (fun a b hp => rowPred_mono row rest hp))
    · exact (ih (i + 1) pc nc).imp (fun a b hp => rowPred_mono row rest hp)
    · exact List.Forall₂.cons
        (Or.inr ⟨rfl, row, List.mem_cons_self row rest, h4, rfl⟩)
        ((ih (i + 1) pc (nc + 1)).imp (fun a b hp => rowPred_mono row rest hp))
    · exact (ih (i + 1) pc nc).imp (fun a b hp => rowPred_mono row rest hp)

theorem readCsvAux_cap (mc : Nat) (hmc : 0 < mc) (nPartitions partitionId : Nat) :
    ∀ (rows : List CsvRow) (i pc nc : Nat),
      pc + (readCsvAux (some mc) nPartitions partitionId rows i pc nc).2.countP
          (fun t => t == 1) ≤ max pc (mc / 2)
      ∧ nc + (readCsvAux (some mc) nPartitions partitionId rows i pc nc).2.countP
          (fun t => t == -1) ≤ max nc (mc / 2) := by
  have hmc0 : mc ≠ 0 := Nat.pos_iff_ne_zero.mp hmc
  intro rows
  induction rows with
  | nil =>
    intro i pc nc
    rw [readCsvAux_nil]
    refine ⟨?_, ?_⟩ <;>
      simp only [List.countP_nil, Nat.add_zero] <;>
      exact Nat.le_max_left _ _
  | cons row rest ih =>
    intro i pc nc
    rw [readCsvAux_cons]
    split_ifs with h1 h2 h3 h4 h5
    · exact ih (i + 1) pc nc
    · exact ih (i + 1) pc nc
    · have hpc : pc + 1 ≤ mc / 2 := by
        simp [capReached, hmc0] at h3
        omega
      obtain ⟨ihp, ihn⟩ := ih (i + 1) (pc + 1) nc
      constructor
      · show pc + (((1 : Int) :: (readCsvAux (some mc) nPartitions partitionId rest
            (i + 1) (pc + 1) nc).2).countP (fun t => t == 1)) ≤ max pc (mc / 2)
        rw [List.countP_cons]
        simp only [show (((1 : Int) == 1) = true) from rfl, if_pos]
        calc pc + ((readCsvAux (some mc) nPartitions partitionId rest (i + 1)
                (pc + 1) nc).2.countP (fun t => t == 1) + 1)
            = (pc + 1) + (readCsvAux (some mc) nPartitions partitionId rest (i + 1)
                (pc + 1) nc).2.countP (fun t => t == 1) := by omega
          _ ≤ max (pc + 1) (mc / 2) := ihp
          _ = mc / 2 := Nat.max_eq_right hpc
          _ ≤ max pc (mc / 2) := Nat.le_max_right _ _
      · show nc + (((1 : Int) :: (readCsvAux (some mc) nPartitions partitionId rest
            (i + 1) (pc + 1) nc).2).countP (fun t => t == -1)) ≤ max nc (mc / 2)
        rw [List.countP_cons]
        simp only [show (((1 : Int) == -1) = false) from rfl, if_neg, Bool.false_eq_true,
          not_false_iff, Nat.add_zero]
        exact ihn
    · exact ih (i + 1) pc nc
    · have hnc : nc + 1 ≤ mc / 2 := by
        simp [capReached, hmc0] at h5
        omega
      obtain ⟨ihp, ihn⟩ := ih (i + 1) pc (nc + 1)
      constructor
      · show pc + ((((-1) : Int) :: (readCsvAux (some mc) nPartitions partitionId rest
            (i + 1) pc (nc + 1)).2).countP (fun t => t == 1)) ≤ max pc (mc / 2)
        rw [List.countP_cons]
        simp only [show ((((-1) : Int) == 1) = false) from rfl, if_neg, Bool.false_eq_true,
          not_false_iff, Nat.add_zero]
        exact ihp
      · show nc + ((((-1) : Int) :: (readCsvAux (some mc) nPartitions partitionId rest
            (i + 1) pc (nc + 1)).2).countP (fun t => t == -1)) ≤ max nc (mc / 2)
        rw [List.countP_cons]
        simp only [show ((((-1) : Int) == -1) = true) from rfl, if_pos]
        calc nc + ((readCsvAux (some mc) nPartitions partitionId rest (i + 1)
                pc (nc + 1)).2.countP (fun t => t == -1) + 1)
            = (nc + 1) + (readCsvAux (some mc) nPartitions partitionId rest (i + 1)
                pc (nc + 1)).2.countP (fun t => t == -1) := by omega
          _ ≤ max (nc + 1) (mc / 2) := ihn
          _ = mc / 2 := Nat.max_eq_right hnc
          _ ≤ max nc (mc / 2) := Nat.le_max_right _ _
    · exact ih (i + 1) pc nc

/-- C10: `read_csv` returns texts and targets of equal length, every target is
`+1` coming with its text from a polarity-`'4'` row or `-1` from a
polarity-`'0'` row (rows with any other polarity are dropped), and under a
positive `max_count` at most `max_count / 2` positive and at most
`max_count / 2` negative rows are kept. -/
theorem read_csv_spec (rows : List CsvRow) (maxCount : Option Nat)
    (nPartitions partitionId : Nat) :
    (read_csv rows maxCount nPartitions partitionId).1.length
      = (read_csv rows maxCount nPartitions partitionId).2.length
    ∧ List.Forall₂ (rowPred rows)
        (read_csv rows maxCount nPartitions partitionId).1
        (read_csv rows maxCount nPartitions partitionId).2
    ∧ ∀ mc : Nat, maxCount = some mc → 0 < mc →
        (read_csv rows maxCount nPartitions partitionId).2.countP
            (fun t => t == 1) ≤ mc / 2
        ∧ (read_csv rows maxCount nPartitions partitionId).2.countP
            (fun t => t == -1) ≤ mc / 2 := by
  refine ⟨(readCsvAux_forall maxCount nPartitions partitionId rows 0 0 0).length_eq,
    readCsvAux_forall maxCount nPartitions partitionId rows 0 0 0, ?_⟩
  intro mc hmc hpos
  subst hmc
  have h := readCsvAux_cap mc hpos nPartitions partitionId rows 0 0 0
  simpa using h

theorem read_csv_spec_witness :
    ((some 2 : Option Nat) = some 2 ∧ 0 < 2) ∧
    ((read_csv [CsvRow.mk "4" "a", CsvRow.mk "4" "b", CsvRow.mk "0" "c",
          CsvRow.mk "2" "d"] (some 2) 1 0).2.countP (fun t => t == 1) ≤ 2 / 2
      ∧ (read_csv [CsvRow.mk "4" "a", CsvRow.mk "4" "b", CsvRow.mk "0" "c",
          CsvRow.mk "2" "d"] (some 2) 1 0).2.countP (fun t => t == -1) ≤ 2 / 2) :=
  ⟨⟨rfl, by decide⟩,
   (read_csv_spec [CsvRow.mk "4" "a", CsvRow.mk "4" "b", CsvRow.mk "0" "c",
      CsvRow.mk "2" "d"] (some 2) 1 0).2.2 2 rfl (by decide)⟩

end TextClf
